import Mathlib

/-!
Shallow embedding of the rhouse_adf ETL pipeline
(`function_app_code/function_app.py`,
`function_app_code/utilities/common_utils.py`,
`function_app_code/tarnsformations/transformation_utils.py`).

Modelling conventions:
* timestamps and dates are `Int` values (seconds/days since the epoch;
  the SQL literal `'1970-01-01'` is the integer 0);
* SQL `NULL`-able columns are `Option` fields; `COALESCE(MAX(x), d)` is
  `maxOr d`;
* each stage's embedded SQL query is translated into list filtering,
  grouping and folding over row structures mirroring the tables touched;
* database transactions are made explicit: a run is described by the
  list of table states it commits, in commit order.
-/

/-- SQL `COALESCE(MAX(xs), d)`: the maximum of a list of integers, or the
default `d` when the list is empty (SQL `MAX` of no rows is `NULL`). -/
def maxOr (d : Int) : List Int → Int
  | [] => d
  | x :: xs => xs.foldl max x

/-- SQL `COALESCE(MIN(xs), d)`: the minimum of a list of integers, or the
default `d` when the list is empty. -/
def minOr (d : Int) : List Int → Int
  | [] => d
  | x :: xs => xs.foldl min x

/-! ## Watermark registry (`lookups.adf_load_tracker`, `get_last_etl_ts`) -/

/-- One row of the watermark tracking table `lookups.adf_load_tracker`:
columns `tbl_id, tbl_nm, last_loaded_ts, etl_nr`. -/
structure TrackerRow where
  tblId : Int
  tblNm : String
  lastLoadedTs : Int
  etlNr : Int
deriving DecidableEq, Repr

/-- Embeds `common_utils.get_last_etl_ts`: runs
`SELECT COALESCE(MAX(last_loaded_ts), '1970-01-01'), COALESCE(MAX(etl_nr), 0)
FROM lookups.adf_load_tracker WHERE tbl_nm = tbl` and returns the pair.
The epoch-zero timestamp `'1970-01-01'` is modelled as `0`. -/
def get_last_etl_ts (regs : List TrackerRow) (tbl : String) : Int × Int :=
  let m := regs.filter (fun r => r.tblNm == tbl)
  (maxOr 0 (m.map (·.lastLoadedTs)), maxOr 0 (m.map (·.etlNr)))

/-! ## External enrichment event selection (`get_valid_event`) -/

/-- An event of the external event-history API, as collected into
`events_list` in `api_info_extract_load_brnx_prc`. -/
structure Event where
  statusCd : String
  subStatusCd : String
  eventDate : Int
  price : Int
  ownerName : String
deriving DecidableEq, Repr

/-- Python `sorted(events, key=lambda x: x["event_date"], reverse=True)`:
stable sort by event date, most recent first. -/
def sortEventsDesc (events : List Event) : List Event :=
  events.insertionSort (fun a b => b.eventDate ≤ a.eventDate)

/-- Does the event match the primary `(type, sub-type)` pair? -/
def primMatch (pt pn : String) (e : Event) : Bool :=
  e.statusCd == pt && e.subStatusCd == pn

/-- The `elif` guard of the loop in `get_valid_event`:
`fallback_type and fallback_name and event[...] == fallback_type and
event[...] == fallback_name`.  A `None` or empty-string fallback argument
is falsy, so the guard can only hold when both are non-empty strings. -/
def fbMatch (ft fn : Option String) (e : Event) : Bool :=
  match ft, fn with
  | some t, some n => !(t == "") && !(n == "") && e.statusCd == t && e.subStatusCd == n
  | _, _ => false

/-- The loop body plus final return of `get_valid_event`, scanning the
date-sorted events while tracking `primary_event` (`pe`) and
`fallback_event` (`fe`).  A primary match with positive price returns
immediately; otherwise `pe`/`fe` are overwritten and the final
expression `primary_event if primary_event and primary_event["price"] > 0
else fallback_event` decides. -/
def get_valid_event_loop (pt pn : String) (ft fn : Option String) :
    List Event → Option Event → Option Event → Option Event
  | [], pe, fe =>
    match pe with
    | some p => if 0 < p.price then some p else fe
    | none => fe
  | e :: rest, pe, fe =>
    if primMatch pt pn e then
      if 0 < e.price then some e
      else get_valid_event_loop pt pn ft fn rest (some e) fe
    else if fbMatch ft fn e then
      get_valid_event_loop pt pn ft fn rest pe (some e)
    else
      get_valid_event_loop pt pn ft fn rest pe fe

/-- Embeds `transformation_utils.get_valid_event(events, primary_type,
primary_name, fallback_type=None, fallback_name=None)`. -/
def get_valid_event (events : List Event) (pt pn : String)
    (ft fn : Option String) : Option Event :=
  get_valid_event_loop pt pn ft fn (sortEventsDesc events) none none

/-- Amended selection rule (what the source actually computes, written as
a closed form to compare with `get_valid_event`): the most-recent
primary-matching event with strictly positive price if one exists;
otherwise the oldest fallback-matching event (regardless of its price)
if the fallback pair is given, non-empty and matched; otherwise nothing. -/
def selectRuleAmended (events : List Event) (pt pn : String)
    (ft fn : Option String) : Option Event :=
  let s := sortEventsDesc events
  match s.find? (fun e => primMatch pt pn e && decide (0 < e.price)) with
  | some e => some e
  | none => (s.filter (fun e => !primMatch pt pn e && fbMatch ft fn e)).getLast?

/-! ## Pipeline dispatcher (`getway`) and HTTP entry point (`rehouzd_function`) -/

/-- The six pipeline stages `getway` can dispatch to. -/
inductive Stage
  | processSilverIntInvDtl
  | processBnzPrclDtl
  | processSlvIntPrp
  | processSlvPrCmps
  | callSlvrIntPrpDtl
  | bnzPrpsUpd
deriving DecidableEq, Repr

/-- The fixed set of recognized `process_key` strings, in the order the
`if`/`elif` chain of `getway` tests them. -/
def recognizedKeys : List String :=
  ["process_silver_int_inv_dtl", "process_bnz_prcl_dtl", "process_slv_int_prp",
   "process_slv_pr_cmps", "call_slvr_int_prp_dtl", "bnz_prps_upd"]

/-- The `if`/`elif` chain of `getway`: which stage a `process_key`
string selects, `none` for the final `else` branch (and for the falsy
key, which falls through the outer `if process_key:` guard). -/
def dispatchStage (key : String) : Option Stage :=
  if key == "process_silver_int_inv_dtl" then some Stage.processSilverIntInvDtl
  else if key == "process_bnz_prcl_dtl" then some Stage.processBnzPrclDtl
  else if key == "process_slv_int_prp" then some Stage.processSlvIntPrp
  else if key == "process_slv_pr_cmps" then some Stage.processSlvPrCmps
  else if key == "call_slvr_int_prp_dtl" then some Stage.callSlvrIntPrpDtl
  else if key == "bnz_prps_upd" then some Stage.bnzPrpsUpd
  else none

/-- Environment abstracting the side-effecting stage bodies: `run st` is
the outcome of executing stage `st` (an `Except` models a Python
exception propagating out of the stage), and `bgEtlNr` is the `etl_nr`
value the `call_slvr_int_prp_dtl` branch allocates and returns to the
caller before spawning its background thread. -/
structure StageEnv where
  run : Stage → Except String Unit
  bgEtlNr : Int

/-- Embeds `transformation_utils.getway(process_key, dic)`: dispatches the key
to one stage.  Every recognized branch runs its stage and returns `None`
except `call_slvr_int_prp_dtl`, which returns the freshly allocated
generation number; the final `else` branch (and a falsy key) returns
`None` without running anything. -/
def getway (env : StageEnv) (key : String) : Except String (Option Int) :=
  match dispatchStage key with
  | some st =>
    match env.run st with
    | Except.ok _ =>
      Except.ok (if st = Stage.callSlvrIntPrpDtl then some env.bgEtlNr else none)
    | Except.error e => Except.error e
  | none => Except.ok none

/-- An HTTP request as seen by `rehouzd_function`: the query-string
parameters and the parsed JSON body (`none` when `req.get_json()` raises
`ValueError`). -/
structure HttpRequest where
  params : List (String × String)
  jsonBody : Option (List (String × String))
deriving DecidableEq, Repr

/-- The four response shapes `rehouzd_function` can produce. -/
inductive RespBody
  | jsonValue (v : Int)
  | notFound (key : String)
  | prompt
  | errorText (msg : String)
deriving DecidableEq, Repr

/-- An HTTP response: status code and body shape. -/
structure HttpResponse where
  status : Nat
  body : RespBody
deriving DecidableEq, Repr

/-- Python `dict.get(k)`: first value bound to `k`, or `None`. -/
def lookupParam (ps : List (String × String)) (k : String) : Option String :=
  (ps.find? (fun q => q.1 == k)).map (·.2)

/-- Python `str(x)` applied to `req.params.get('process_key')`: the
string itself, or the string `"None"` when the lookup returned `None`. -/
def pyStr : Option String → String
  | none => "None"
  | some s => s

/-- Python `str.strip()`: remove leading and trailing whitespace.
Implemented by structural recursion on the character list so that it
evaluates inside the kernel (`String.trim` does not reduce). -/
def pyStrip (s : String) : String :=
  String.mk (((s.data.dropWhile Char.isWhitespace).reverse.dropWhile
    Char.isWhitespace).reverse)

/-- Python truthiness of the final `process_key` value: `None` and the
empty string are falsy. -/
def truthyKey : Option String → Bool
  | none => false
  | some s => !(s == "")

/-- The `process_key` value `rehouzd_function` ends up testing: the
query parameter passed through `str(...).strip()`, falling back to the
raw body field only when that string is empty. -/
def effectiveKey (req : HttpRequest) : Option String :=
  let pk1 := pyStrip (pyStr (lookupParam req.params ("process_key")))
  if pk1 == "" then
    match req.jsonBody with
    | none => some pk1
    | some b => lookupParam b ("process_key")
  else some pk1

/-- Embeds `function_app.rehouzd_function`: computes the effective key, and if
it is truthy dispatches `getway`, wrapping the result (`{"value": v}` as
JSON on a non-`None` value, the plain-text `"Hello, ... Not found"`
message otherwise, or the outer `except` branch on an exception); a
falsy key yields the 400 plain-text prompt. -/
def rehouzd_function (env : StageEnv) (req : HttpRequest) : HttpResponse :=
  let pk := effectiveKey req
  if truthyKey pk then
    match getway env (pk.getD "") with
    | Except.ok (some v) => ⟨200, RespBody.jsonValue v⟩
    | Except.ok none => ⟨200, RespBody.notFound (pk.getD "")⟩
    | Except.error e => ⟨400, RespBody.errorText e⟩
  else ⟨400, RespBody.prompt⟩

/-! ## Bronze fact rows (`bronze.brnz_prps_prop_sales_dtl`) -/

/-- One row of the raw fact table `bronze.brnz_prps_prop_sales_dtl`, with
the columns the embedded queries touch.  Columns subject to the
aggregation query's `IS NOT NULL` filters are `Option` fields. -/
structure BronzeSalesRow where
  sk : Int
  etlNr : Int
  etlRecordedGmts : Int
  investorCompanyNm : Option String
  propLastSaleDt : Int
  propLastSaleAmt : Option Int
  propAttrBrCnt : Option Int
  propAttrBthCnt : Option Int
  propYrBltNr : Option Int
  propAttrSqftNr : Option Int
  propZipCd : Option String
  propTltCndNm : Option String
  propIntCndNm : Option String
  propExtCndNm : Option String
  propBthCndNm : Option String
  propKthCndNm : Option String
  propAddressLineTxt : String
  propCityNm : String
  propStateNm : String
  propCntyNm : String
  propListPriceAmt : Option Int
deriving DecidableEq, Repr

/-! ## Aggregation stage (`process_slv_int_inv` input query) -/

/-- The `WHERE` clause of the aggregation query in `process_slv_int_inv`:
`prop_last_sale_dt <= CURRENT_DATE AND prop_last_sale_dt >= CURRENT_DATE
- INTERVAL '12 months'` plus the seven `IS NOT NULL` filters.
`today` is `CURRENT_DATE` and `windowStart` is the computed
twelve-months-ago date.  Note the query has no `etl_nr` or
`etl_recorded_gmts` predicate. -/
def inv_input_pred (today windowStart : Int) (r : BronzeSalesRow) : Bool :=
  decide (r.propLastSaleDt ≤ today) && decide (windowStart ≤ r.propLastSaleDt) &&
  !(r.investorCompanyNm == none) && !(r.propAttrBrCnt == none) &&
  !(r.propAttrBthCnt == none) && !(r.propLastSaleAmt == none) &&
  !(r.propYrBltNr == none) && !(r.propAttrSqftNr == none) &&
  !(r.propZipCd == none)

/-- The row set the aggregation query of `process_slv_int_inv` reads
from the bronze table. -/
def process_slv_int_inv_input (today windowStart : Int)
    (rows : List BronzeSalesRow) : List BronzeSalesRow :=
  rows.filter (inv_input_pred today windowStart)

/-- Modelled from the spec (for comparison with
`process_slv_int_inv_input`): the spec's claimed input row set, which
additionally requires `recorded_at <= watermark.last_loaded_at AND
generation = watermark.generation` for the watermark `(wmTs, wmGen)`
read for the bronze table. -/
def spec_inv_input (wmTs wmGen today windowStart : Int)
    (rows : List BronzeSalesRow) : List BronzeSalesRow :=
  rows.filter (fun r =>
    decide (r.etlRecordedGmts ≤ wmTs) && decide (r.etlNr = wmGen) &&
    inv_input_pred today windowStart r)

/-- The five condition quality levels of the tally columns, in the
column order `Good, Average, Disrepair, Excellent, Poor`. -/
def condTypes : List String := ["Good", "Average", "Disrepair", "Excellent", "Poor"]

/-- SQL `SUM(CASE WHEN col = level THEN 1 ELSE 0 END)` for each of the five
levels, over one condition column of a group. -/
def tallyFor (vals : List (Option String)) : List Int :=
  condTypes.map (fun c => ((vals.filter (fun v => v == some c)).length : Int))

/-- One output row of the aggregation query of `process_slv_int_inv`
(the `records` rows fed to `upsert_table`).  `activeFlagInt` is the
window column `SUM(CASE WHEN COUNT(*) >= 2 THEN 1 ELSE 0 END) OVER
(PARTITION BY investor_company_nm_txt)`; after the `GROUP BY` each
partition holds exactly one row, so it collapses to the single case
expression.  `condTallies` lists the 25 tally columns in select order. -/
structure InvAggRow where
  investorCompanyNmTxt : String
  numProperties : Int
  activeFlagInt : Int
  minBr : Int
  minBth : Int
  mxAmt : Int
  minAmt : Int
  minYears : Int
  minSqft : Int
  listZips : List String
  condTallies : List Int
deriving DecidableEq, Repr

/-- The aggregate select list, computed for the group of filtered input
rows whose `investor_company_nm_txt` is `nm`.  `FLOOR(x / 10) * 10` is
`10 * Int.fdiv x 10`. -/
def aggRowFor (nm : String) (input : List BronzeSalesRow) : InvAggRow :=
  let grp := input.filter (fun r => r.investorCompanyNm == some nm)
  { investorCompanyNmTxt := nm
    numProperties := (grp.length : Int)
    activeFlagInt := if 2 ≤ grp.length then 1 else 0
    minBr := minOr 0 (grp.filterMap (·.propAttrBrCnt))
    minBth := minOr 0 (grp.filterMap (·.propAttrBthCnt))
    mxAmt := maxOr 0 (grp.filterMap (·.propLastSaleAmt))
    minAmt := minOr 0 (grp.filterMap (·.propLastSaleAmt))
    minYears := 10 * Int.fdiv (minOr 0 (grp.filterMap (·.propYrBltNr))) 10
    minSqft := 10 * Int.fdiv (minOr 0 (grp.filterMap (·.propAttrSqftNr))) 10
    listZips := (grp.filterMap (·.propZipCd)).dedup
    condTallies :=
      tallyFor (grp.map (·.propTltCndNm)) ++ tallyFor (grp.map (·.propIntCndNm)) ++
      tallyFor (grp.map (·.propExtCndNm)) ++ tallyFor (grp.map (·.propBthCndNm)) ++
      tallyFor (grp.map (·.propKthCndNm)) }

/-- The full aggregation query result: one `InvAggRow` per distinct
non-null investor name of the filtered input (`GROUP BY
investor_company_nm_txt`). -/
def process_slv_int_inv_agg (today windowStart : Int)
    (rows : List BronzeSalesRow) : List InvAggRow :=
  let input := process_slv_int_inv_input today windowStart rows
  ((input.filterMap (·.investorCompanyNm)).dedup).map (fun nm => aggRowFor nm input)

/-! ## SCD upsert of the investor table (`upsert_table`, `silver.slvr_int_inv_dtl`) -/

/-- The `investor_profile` JSON document built inside `upsert_table`:
rows 3..9 of the aggregate record plus the 25 condition tallies keyed by
condition column and level. -/
structure InvProfile where
  minPropAttrBrCnt : Int
  minPropAttrBthCnt : Int
  mxPropsAmnt : Int
  minPropsAmnt : Int
  minYear : Int
  minSqft : Int
  listZips : List String
  condTallies : List Int
deriving DecidableEq, Repr

/-- One row of `silver.slvr_int_inv_dtl`, in insert-column order. -/
structure SlvIntInvRow where
  sk : Int
  loadDateDt : Int
  etlNr : Int
  etlReordedGmts : Int
  recordInsertedTs : Int
  activeFlg : Bool
  investorCompanyNmTxt : String
  investorProfile : InvProfile
  numPropPurchased : Int
  activeRecInd : Bool
deriving DecidableEq, Repr

/-- The key/generation read of `process_slv_int_inv`:
`SELECT COALESCE(MAX(slvr_int_inv_dtl_sk),0), COALESCE(MAX(etl_nr),0)
FROM silver.slvr_int_inv_dtl`. -/
def nextKeysInv (t : List SlvIntInvRow) : Int × Int :=
  (maxOr 0 (t.map (·.sk)), maxOr 0 (t.map (·.etlNr)))

/-- The `upd_query` of `process_slv_int_inv`, executed by `upsert_table`
with parameter `prv`: `UPDATE silver.slvr_int_inv_dtl SET active_rec_ind
= false WHERE etl_nr = prv`. -/
def deactivateGen (prv : Int) (t : List SlvIntInvRow) : List SlvIntInvRow :=
  t.map (fun r => if r.etlNr = prv then { r with activeRecInd := false } else r)

/-- One insert of the loop body of `upsert_table`: the row built from an
aggregate record, stamped with the surrogate key, the new generation and
the audit timestamps; `active_flag` is the Python truthiness of the
window column and `active_rec_ind` is always `True`. -/
def mkInvRow (sk gen loadDate gmts now : Int) (a : InvAggRow) : SlvIntInvRow :=
  { sk := sk
    loadDateDt := loadDate
    etlNr := gen
    etlReordedGmts := gmts
    recordInsertedTs := now
    activeFlg := !(a.activeFlagInt == 0)
    investorCompanyNmTxt := a.investorCompanyNmTxt
    investorProfile :=
      { minPropAttrBrCnt := a.minBr
        minPropAttrBthCnt := a.minBth
        mxPropsAmnt := a.mxAmt
        minPropsAmnt := a.minAmt
        minYear := a.minYears
        minSqft := a.minSqft
        listZips := a.listZips
        condTallies := a.condTallies }
    numPropPurchased := a.numProperties
    activeRecInd := true }

/-- The insert loop of `upsert_table`: the surrogate key is incremented
once per record before each insert, starting from the read maximum. -/
def insertInvRows (sk0 gen loadDate gmts now : Int) :
    List InvAggRow → List SlvIntInvRow
  | [] => []
  | a :: rest =>
    mkInvRow (sk0 + 1) gen loadDate gmts now a ::
      insertInvRows (sk0 + 1) gen loadDate gmts now rest

/-- Embeds `transformation_utils.upsert_table(records, conn, slv_pk, etl_nr,
insert_query, upd_query)`: flips `active_rec_ind` to false for the rows
of generation `etl_nr`, then inserts the batch stamped with generation
`etl_nr + 1` and keys `slv_pk + 1, slv_pk + 2, ...`.  Returns the final
table state and the returned `etl_nr`. -/
def upsert_table (records : List InvAggRow) (slv_pk etl_nr : Int)
    (t : List SlvIntInvRow) (loadDate gmts now : Int) :
    List SlvIntInvRow × Int :=
  (deactivateGen etl_nr t ++ insertInvRows slv_pk (etl_nr + 1) loadDate gmts now records,
   etl_nr + 1)

/-- The table states `upsert_table` commits, in order: the function
executes `conn.commit()` twice — once immediately after the deactivation
`UPDATE` and once after the whole insert loop — so a failure during the
inserts leaves the first committed state visible. -/
def upsert_table_commits (records : List InvAggRow) (slv_pk etl_nr : Int)
    (t : List SlvIntInvRow) (loadDate gmts now : Int) :
    List (List SlvIntInvRow) :=
  [deactivateGen etl_nr t,
   (upsert_table records slv_pk etl_nr t loadDate gmts now).1]

/-- The composed stage `process_slv_int_inv`: aggregate the bronze rows,
read `(slv_pk, etl_nr)` from the silver table, and upsert. -/
def process_slv_int_inv_run (today windowStart loadDate gmts now : Int)
    (bronze : List BronzeSalesRow) (t : List SlvIntInvRow) :
    List SlvIntInvRow × Int :=
  upsert_table (process_slv_int_inv_agg today windowStart bronze)
    (nextKeysInv t).1 (nextKeysInv t).2 t loadDate gmts now

/-! ## Address-scoped SCD upsert (`prc_slv_int_prop_sls_dlt_pl`,
`silver.slvr_int_prop_sales_dlt`) -/

/-- SQL `CONCAT(PROP_ADDRESS_LINE_TXT,'/',PROP_CITY_NM,'/',PROP_STATE_NM,
'/',PROP_CNTY_NM,'/',PROP_ZIP_CD)`: the natural address key.  SQL
`CONCAT` renders `NULL` as the empty string. -/
def usraddrOf (r : BronzeSalesRow) : String :=
  r.propAddressLineTxt ++ "/" ++ r.propCityNm ++ "/" ++ r.propStateNm ++ "/" ++
    r.propCntyNm ++ "/" ++ (r.propZipCd.getD "")

/-- SQL `dense_rank() over (partition by usraddr order by PROP_LAST_SALE_DT
desc) = 1`: the row's sale date is the maximum over the rows of the CTE
sharing its address key. -/
def latest_record_ind_of (rows : List BronzeSalesRow) (r : BronzeSalesRow) : Bool :=
  decide (∀ r2 ∈ rows, usraddrOf r2 = usraddrOf r → r2.propLastSaleDt ≤ r.propLastSaleDt)

/-- One row of the CTE result of `prc_slv_int_prop_sls_dlt_pl`, in the
column positions the insert loop reads (`row[0..9]` plus
`row[11] = latest_record_ind`). -/
structure SalesBatchRow where
  slvrIntPropFk : Option Int
  propSaleDt : Int
  propSaleAmt : Option Int
  propTltCndNm : Option String
  propIntCndNm : Option String
  propExtCndNm : Option String
  propBthCndNm : Option String
  propKthCndNm : Option String
  propListPriceAmt : Option Int
  usraddr : String
  latestRecordInd : Bool
deriving DecidableEq, Repr

/-- The CTE of `prc_slv_int_prop_sls_dlt_pl`: bronze rows restricted to
`etl_nr = gen AND etl_recorded_gmts <= ts`, ordered by surrogate key
ascending, projected to the select list with the dense-rank-derived
`latest_record_ind`. -/
def prc_sls_batch (gen ts : Int) (bronze : List BronzeSalesRow) :
    List SalesBatchRow :=
  let sel := bronze.filter (fun r =>
    decide (r.etlNr = gen) && decide (r.etlRecordedGmts ≤ ts))
  (sel.insertionSort (fun a b => a.sk ≤ b.sk)).map (fun r =>
    { slvrIntPropFk := none
      propSaleDt := r.propLastSaleDt
      propSaleAmt := r.propLastSaleAmt
      propTltCndNm := r.propTltCndNm
      propIntCndNm := r.propIntCndNm
      propExtCndNm := r.propExtCndNm
      propBthCndNm := r.propBthCndNm
      propKthCndNm := r.propKthCndNm
      propListPriceAmt := r.propListPriceAmt
      usraddr := usraddrOf r
      latestRecordInd := latest_record_ind_of sel r })

/-- One row of `silver.slvr_int_prop_sales_dlt`. -/
structure SlvSalesRow where
  sk : Int
  slvrIntPropFk : Option Int
  loadDateDt : Int
  etlNr : Int
  etlRecordedGmts : Int
  recordInsertedTs : Int
  propSaleDt : Int
  propSaleAmt : Option Int
  propTltCndNm : Option String
  propIntCndNm : Option String
  propExtCndNm : Option String
  propBthCndNm : Option String
  propKthCndNm : Option String
  propListPriceAmt : Option Int
  latestRecordInd : Bool
  usraddr : String
deriving DecidableEq, Repr

/-- The run-level constants `call_slvr_int_prp_dtl` passes to
`prc_slv_int_prop_sls_dlt_pl`: load date, generation and timestamps. -/
structure SalesMeta where
  loadDateDt : Int
  etlNr : Int
  etlRecordedGmts : Int
  now : Int
deriving DecidableEq, Repr

/-- The `WHERE latest_record_ind = true AND usraddr = a` predicate of
both the lookup and the deactivation `UPDATE` in the per-row loop. -/
def salesActivePred (a : String) (x : SlvSalesRow) : Bool :=
  x.latestRecordInd && x.usraddr == a

/-- The currently active (latest-flagged) silver rows for an address. -/
def activesFor (a : String) (t : List SlvSalesRow) : List SlvSalesRow :=
  t.filter (salesActivePred a)

/-- The silver row inserted for one batch row: `latest_record_ind` is
the batch row's own column (`row[11]`), not unconditionally `true`. -/
def mkSlvSalesRow (sk : Int) (m : SalesMeta) (r : SalesBatchRow) : SlvSalesRow :=
  { sk := sk
    slvrIntPropFk := r.slvrIntPropFk
    loadDateDt := m.loadDateDt
    etlNr := m.etlNr
    etlRecordedGmts := m.etlRecordedGmts
    recordInsertedTs := m.now
    propSaleDt := r.propSaleDt
    propSaleAmt := r.propSaleAmt
    propTltCndNm := r.propTltCndNm
    propIntCndNm := r.propIntCndNm
    propExtCndNm := r.propExtCndNm
    propBthCndNm := r.propBthCndNm
    propKthCndNm := r.propKthCndNm
    propListPriceAmt := r.propListPriceAmt
    latestRecordInd := r.latestRecordInd
    usraddr := r.usraddr }

/-- One iteration of the per-row loop of `prc_slv_int_prop_sls_dlt_pl`:
increment the surrogate key, look up the currently active rows for the
incoming address, deactivate them when any exist, then insert the new
row. -/
def process_sales_row (m : SalesMeta) (st : List SlvSalesRow × Int)
    (r : SalesBatchRow) : List SlvSalesRow × Int :=
  let t := st.1
  let sk := st.2 + 1
  let t' :=
    if t.any (salesActivePred r.usraddr) then
      t.map (fun x =>
        if salesActivePred r.usraddr x then { x with latestRecordInd := false } else x)
    else t
  (t' ++ [mkSlvSalesRow sk m r], sk)

/-- The whole per-row loop of `prc_slv_int_prop_sls_dlt_pl` over a
batch, threading the table state and the surrogate key. -/
def sales_fold (m : SalesMeta) (st : List SlvSalesRow × Int)
    (batch : List SalesBatchRow) : List SlvSalesRow × Int :=
  batch.foldl (process_sales_row m) st

/-- Embeds `prc_slv_int_prop_sls_dlt_pl(conn, obj, etl_nr, load_date_dt,
etl_recorded_gmts, slvr_int_prop_dtl_sk)`: builds the batch from the
bronze table at the watermark `(ts, gen)` of
`pl_brnz_prps_prop_sales_dtl` and runs the per-row loop from the silver
table state `t0` and key `sk0`. -/
def prc_slv_int_prop_sls_dlt_pl (gen ts : Int) (bronze : List BronzeSalesRow)
    (m : SalesMeta) (t0 : List SlvSalesRow) (sk0 : Int) : List SlvSalesRow :=
  (sales_fold m (t0, sk0) (prc_sls_batch gen ts bronze)).1

/-- The table states `prc_slv_int_prop_sls_dlt_pl` commits, in order:
the function executes `conn.commit()` exactly once, after the whole
per-row loop. -/
def prc_sls_commits (gen ts : Int) (bronze : List BronzeSalesRow)
    (m : SalesMeta) (t0 : List SlvSalesRow) (sk0 : Int) :
    List (List SlvSalesRow) :=
  [prc_slv_int_prop_sls_dlt_pl gen ts bronze m t0 sk0]

/-- Computes `(batch.filter (usraddr = a)).getLast?`: the batch row for address
`a` processed last in batch order, when one exists. -/
def lastFor (a : String) (batch : List SalesBatchRow) : Option SalesBatchRow :=
  (batch.filter (fun r => r.usraddr == a)).getLast?

/-! ## Concrete sample data used by counterexamples and witnesses -/

/-- A helper closed form for the scan of `get_valid_event_loop` over a
remaining event list with a pending fallback value: the first
primary-matching event with positive price, else the last
fallback-matching event, else the pending value `fe`. -/
def selectScan (pt pn : String) (ft fn : Option String) (L : List Event)
    (fe : Option Event) : Option Event :=
  match L.find? (fun e => primMatch pt pn e && decide (0 < e.price)) with
  | some e => some e
  | none =>
    match (L.filter (fun e => !primMatch pt pn e && fbMatch ft fn e)).getLast? with
    | some f => some f
    | none => fe

/-- A SALE/SOLD event with price 0 (most recent, date 10). -/
def saleSoldZero : Event :=
  { statusCd := "SALE", subStatusCd := "SOLD", eventDate := 10, price := 0,
    ownerName := "owner1" }

/-- A LISTING/PENDING_SALE event with price 150000 (older, date 5). -/
def listingPending : Event :=
  { statusCd := "LISTING", subStatusCd := "PENDING_SALE", eventDate := 5,
    price := 150000, ownerName := "owner2" }

/-- A RENTAL/DELISTED FOR RENT event with price 0. -/
def rentalZero : Event :=
  { statusCd := "RENTAL", subStatusCd := "DELISTED FOR RENT", eventDate := 3,
    price := 0, ownerName := "owner3" }

/-- Sample watermark registry rows: two rows for the same table, one for
another table. -/
def sampleRegs : List TrackerRow :=
  [{ tblId := 1, tblNm := "pl_brnz_prps_prop_sales_dtl", lastLoadedTs := 5, etlNr := 2 },
   { tblId := 2, tblNm := "pl_brnz_prps_prop_sales_dtl", lastLoadedTs := 3, etlNr := 7 },
   { tblId := 3, tblNm := "other_tbl", lastLoadedTs := 99, etlNr := 99 }]

/-- A stage environment in which every stage succeeds. -/
def stageEnv0 : StageEnv := ⟨fun _ => Except.ok (), 0⟩

/-- A bronze fact row of generation 99 whose sale date lies in the query
window and whose required columns are all non-null. -/
def rowGen99 : BronzeSalesRow :=
  { sk := 1, etlNr := 99, etlRecordedGmts := 100, investorCompanyNm := some ("I1"),
    propLastSaleDt := 50, propLastSaleAmt := some 100, propAttrBrCnt := some 3,
    propAttrBthCnt := some 2, propYrBltNr := some 1995, propAttrSqftNr := some 1507,
    propZipCd := some ("37013"), propTltCndNm := none, propIntCndNm := none,
    propExtCndNm := none, propBthCndNm := none, propKthCndNm := none,
    propAddressLineTxt := "1 Elm", propCityNm := "Nash", propStateNm := "TN",
    propCntyNm := "Dav", propListPriceAmt := none }

/-- First sample purchase by the investor "Acme LLC". -/
def acme1 : BronzeSalesRow :=
  { sk := 1, etlNr := 1, etlRecordedGmts := 0, investorCompanyNm := some ("Acme LLC"),
    propLastSaleDt := 10, propLastSaleAmt := some 100, propAttrBrCnt := some 3,
    propAttrBthCnt := some 2, propYrBltNr := some 1995, propAttrSqftNr := some 1507,
    propZipCd := some ("37013"), propTltCndNm := some ("Good"), propIntCndNm := none,
    propExtCndNm := none, propBthCndNm := none, propKthCndNm := none,
    propAddressLineTxt := "1 Elm", propCityNm := "Nash", propStateNm := "TN",
    propCntyNm := "Dav", propListPriceAmt := none }

/-- Second sample purchase by the investor "Acme LLC". -/
def acme2 : BronzeSalesRow :=
  { sk := 2, etlNr := 1, etlRecordedGmts := 0, investorCompanyNm := some ("Acme LLC"),
    propLastSaleDt := 20, propLastSaleAmt := some 200, propAttrBrCnt := some 3,
    propAttrBthCnt := some 2, propYrBltNr := some 1988, propAttrSqftNr := some 1432,
    propZipCd := some ("37Columbia"), propTltCndNm := some ("Average"), propIntCndNm := none,
    propExtCndNm := none, propBthCndNm := none, propKthCndNm := none,
    propAddressLineTxt := "2 Oak", propCityNm := "Nash", propStateNm := "TN",
    propCntyNm := "Dav", propListPriceAmt := none }

/-- A bronze row with the more recent sale (date 10) at an address, with
the lower surrogate key so it is processed first. -/
def bronzeNewer : BronzeSalesRow :=
  { sk := 1, etlNr := 1, etlRecordedGmts := 0, investorCompanyNm := none,
    propLastSaleDt := 10, propLastSaleAmt := some 100, propAttrBrCnt := none,
    propAttrBthCnt := none, propYrBltNr := none, propAttrSqftNr := none,
    propZipCd := some ("37013"), propTltCndNm := none, propIntCndNm := none,
    propExtCndNm := none, propBthCndNm := none, propKthCndNm := none,
    propAddressLineTxt := "1 Elm", propCityNm := "Nash", propStateNm := "TN",
    propCntyNm := "Dav", propListPriceAmt := none }

/-- A bronze row with an older sale (date 5) at the same address as
`bronzeNewer`, with the higher surrogate key so it is processed last. -/
def bronzeOlder : BronzeSalesRow :=
  { sk := 2, etlNr := 1, etlRecordedGmts := 0, investorCompanyNm := none,
    propLastSaleDt := 5, propLastSaleAmt := some 80, propAttrBrCnt := none,
    propAttrBthCnt := none, propYrBltNr := none, propAttrSqftNr := none,
    propZipCd := some ("37013"), propTltCndNm := none, propIntCndNm := none,
    propExtCndNm := none, propBthCndNm := none, propKthCndNm := none,
    propAddressLineTxt := "1 Elm", propCityNm := "Nash", propStateNm := "TN",
    propCntyNm := "Dav", propListPriceAmt := none }

/-- A sample investor profile document. -/
def profileA : InvProfile :=
  { minPropAttrBrCnt := 3, minPropAttrBthCnt := 2, mxPropsAmnt := 100,
    minPropsAmnt := 50, minYear := 1990, minSqft := 1500, listZips := [],
    condTallies := [] }

/-- A one-row investor table whose single row is active in generation 1. -/
def invT0 : List SlvIntInvRow :=
  [{ sk := 1, loadDateDt := 0, etlNr := 1, etlReordedGmts := 0,
     recordInsertedTs := 0, activeFlg := true, investorCompanyNmTxt := "A",
     investorProfile := profileA, numPropPurchased := 1, activeRecInd := true }]

/-- A sample aggregate record for investor "A". -/
def aggA : InvAggRow :=
  { investorCompanyNmTxt := "A", numProperties := 2, activeFlagInt := 1,
    minBr := 3, minBth := 2, mxAmt := 100, minAmt := 50, minYears := 1990,
    minSqft := 1500, listZips := [], condTallies := [] }

/-! ## General lemmas about the SQL aggregate helpers -/

theorem le_foldl_max (xs : List Int) (a : Int) : a ≤ xs.foldl max a := by
  induction xs generalizing a with
  | nil => exact le_refl a
  | cons x xs ih => exact le_trans (le_max_left a x) (ih (max a x))

theorem mem_le_foldl_max (xs : List Int) (a y : Int) (h : y ∈ xs) :
    y ≤ xs.foldl max a := by
  induction xs generalizing a with
  | nil => cases h
  | cons x xs ih =>
    rcases List.mem_cons.mp h with rfl | h2
    · exact le_trans (le_max_right a y) (le_foldl_max xs (max a y))
    · exact ih (max a x) h2

theorem foldl_max_mem (xs : List Int) (a : Int) :
    xs.foldl max a = a ∨ xs.foldl max a ∈ xs := by
  induction xs generalizing a with
  | nil => exact Or.inl rfl
  | cons x xs ih =>
    rcases ih (max a x) with h | h
    · rcases max_choice a x with hm | hm
      · exact Or.inl (by rw [List.foldl_cons, h, hm])
      · exact Or.inr (by rw [List.foldl_cons, h, hm]; exact List.mem_cons_self x xs)
    · exact Or.inr (List.mem_cons_of_mem x h)

theorem le_maxOr (d : Int) {y : Int} {xs : List Int} (h : y ∈ xs) :
    y ≤ maxOr d xs := by
  cases xs with
  | nil => cases h
  | cons x xs =>
    rcases List.mem_cons.mp h with rfl | h2
    · exact le_foldl_max xs y
    · exact mem_le_foldl_max xs x y h2

theorem maxOr_mem (d : Int) {xs : List Int} (h : xs ≠ []) : maxOr d xs ∈ xs := by
  cases xs with
  | nil => exact absurd rfl h
  | cons x xs =>
    rcases foldl_max_mem xs x with h2 | h2
    · exact (show (maxOr d (x :: xs)) ∈ x :: xs by
        show xs.foldl max x ∈ x :: xs
        rw [h2]; exact List.mem_cons_self x xs)
    · exact List.mem_cons_of_mem x h2

/-! ## C6: watermark registry read -/

/-- C6: for every table name, `get_last_etl_ts` returns the pair of the
maximum `last_loaded_ts` and the maximum `etl_nr` recorded for that
table, and returns the epoch-zero timestamp (modelled as 0) and
generation 0 when no watermark record exists for it. -/
theorem C6_watermark_read (regs : List TrackerRow) (tbl : String) :
    (regs.filter (fun r => r.tblNm == tbl) = [] →
      get_last_etl_ts regs tbl = (0, 0)) ∧
    (∀ r ∈ regs, r.tblNm = tbl →
      r.lastLoadedTs ≤ (get_last_etl_ts regs tbl).1 ∧
      r.etlNr ≤ (get_last_etl_ts regs tbl).2) ∧
    (regs.filter (fun r => r.tblNm == tbl) ≠ [] →
      (∃ r ∈ regs, r.tblNm = tbl ∧ r.lastLoadedTs = (get_last_etl_ts regs tbl).1) ∧
      (∃ r ∈ regs, r.tblNm = tbl ∧ r.etlNr = (get_last_etl_ts regs tbl).2)) := by
  refine ⟨?_, ?_, ?_⟩
  · intro h
    simp only [get_last_etl_ts, h, List.map_nil]
    rfl
  · intro r hr hnm
    have hf : r ∈ regs.filter (fun x => x.tblNm == tbl) :=
      List.mem_filter.mpr ⟨hr, by simp [hnm]⟩
    constructor
    · exact le_maxOr 0 (List.mem_map.mpr ⟨r, hf, rfl⟩)
    · exact le_maxOr 0 (List.mem_map.mpr ⟨r, hf, rfl⟩)
  · intro hne
    constructor
    · have h1 : (regs.filter (fun x => x.tblNm == tbl)).map (·.lastLoadedTs) ≠ [] := by
        simpa using hne
      rcases List.mem_map.mp (maxOr_mem 0 h1) with ⟨r, hr, hEq⟩
      have hm := List.mem_filter.mp hr
      exact ⟨r, hm.1, by simpa using hm.2, hEq⟩
    · have h1 : (regs.filter (fun x => x.tblNm == tbl)).map (·.etlNr) ≠ [] := by
        simpa using hne
      rcases List.mem_map.mp (maxOr_mem 0 h1) with ⟨r, hr, hEq⟩
      have hm := List.mem_filter.mp hr
      exact ⟨r, hm.1, by simpa using hm.2, hEq⟩

/-- C6 witness: on the sample registry the read returns the two maxima,
and on an empty registry it returns the epoch-zero default. -/
theorem C6_witness :
    ((5 : Int) ≤ (get_last_etl_ts sampleRegs ("pl_brnz_prps_prop_sales_dtl")).1 ∧
      (2 : Int) ≤ (get_last_etl_ts sampleRegs ("pl_brnz_prps_prop_sales_dtl")).2) ∧
    get_last_etl_ts [] ("pl_brnz_prps_prop_sales_dtl") = (0, 0) := by
  constructor
  · exact (C6_watermark_read sampleRegs ("pl_brnz_prps_prop_sales_dtl")).2.1
      { tblId := 1, tblNm := "pl_brnz_prps_prop_sales_dtl", lastLoadedTs := 5, etlNr := 2 }
      (by decide) (by decide)
  · exact (C6_watermark_read [] ("pl_brnz_prps_prop_sales_dtl")).1 rfl

/-! ## C8 and C9: HTTP entry point and dispatcher -/

/-- C8 (code bug evidence): for a request with no `process_key` in the
query string and no JSON body, Python `str(None)` yields the truthy
string `"None"`, so the entry point dispatches `getway` with the key
`"None"` (a no-op, since `"None"` is unrecognized) and answers with
status 200 and the `"Hello, None Not found"` message — not with the 400
plain-text prompt the claim (and the dead body-fallback branch of the
code) intends. -/
theorem C8_missing_key_returns_200 (env : StageEnv) :
    rehouzd_function env { params := [], jsonBody := none } =
      { status := 200, body := RespBody.notFound ("None") } ∧
    dispatchStage ("None") = none := by
  constructor
  · rfl
  · rfl

/-- C9: for every key outside the fixed set of recognized stage names,
the dispatcher is a silent no-op — no stage is consulted
(`dispatchStage` is `none`), no exception is raised and `None` is
returned (`Except.ok none` for every stage environment) — and any
request whose effective (stripped) `process_key` is that key gets an
HTTP response with success status 200. -/
theorem C9_unrecognized_key_noop (env : StageEnv) (req : HttpRequest)
    (key : String) (h : key ∉ recognizedKeys) :
    dispatchStage key = none ∧ getway env key = Except.ok none ∧
    (effectiveKey req = some key → truthyKey (some key) = true →
      rehouzd_function env req = { status := 200, body := RespBody.notFound key }) := by
  simp only [recognizedKeys, List.mem_cons, List.not_mem_nil, or_false, not_or] at h
  obtain ⟨h1, h2, h3, h4, h5, h6⟩ := h
  have hd : dispatchStage key = none := by
    simp [dispatchStage, h1, h2, h3, h4, h5, h6]
  have hg : getway env key = Except.ok none := by
    simp [getway, hd]
  refine ⟨hd, hg, ?_⟩
  intro he ht
  simp [rehouzd_function, he, ht, hg]

/-- C9 witness: the concrete unrecognized key "bogus" in a concrete
environment and request. -/
theorem C9_witness :
    dispatchStage ("bogus") = none ∧
    getway stageEnv0 ("bogus") = Except.ok none ∧
    rehouzd_function stageEnv0 { params := [("process_key", "bogus")], jsonBody := none } =
      { status := 200, body := RespBody.notFound ("bogus") } := by
  have h := C9_unrecognized_key_noop stageEnv0
    { params := [("process_key", "bogus")], jsonBody := none } ("bogus") (by decide)
  exact ⟨h.1, h.2.1, h.2.2 rfl rfl⟩

/-! ## Lemmas about the event selection scan -/

theorem getLast?_cons_of_ne_nil {α : Type} (a : α) {l : List α} (h : l ≠ []) :
    (a :: l).getLast? = l.getLast? := by
  cases l with
  | nil => exact absurd rfl h
  | cons b l2 => exact List.getLast?_cons_cons

theorem getLast?_some_of_ne_nil {α : Type} {l : List α} (h : l ≠ []) :
    ∃ z, l.getLast? = some z := by
  cases hz : l.getLast? with
  | some z => exact ⟨z, rfl⟩
  | none => exact absurd (List.getLast?_eq_none_iff.mp hz) h

theorem selectScan_nil (pt pn : String) (ft fn : Option String)
    (fe : Option Event) : selectScan pt pn ft fn [] fe = fe := rfl

theorem selectScan_cons_prim_pos (pt pn : String) (ft fn : Option String)
    (e : Event) (L : List Event) (fe : Option Event)
    (h1 : primMatch pt pn e = true) (h2 : 0 < e.price) :
    selectScan pt pn ft fn (e :: L) fe = some e := by
  simp [selectScan, List.find?_cons, h1, h2]

theorem selectScan_cons_prim_nonpos (pt pn : String) (ft fn : Option String)
    (e : Event) (L : List Event) (fe : Option Event)
    (h1 : primMatch pt pn e = true) (h2 : ¬ 0 < e.price) :
    selectScan pt pn ft fn (e :: L) fe = selectScan pt pn ft fn L fe := by
  simp [selectScan, List.find?_cons, h1, h2]

theorem selectScan_cons_fb (pt pn : String) (ft fn : Option String)
    (e : Event) (L : List Event) (fe : Option Event)
    (h1 : primMatch pt pn e = false) (h2 : fbMatch ft fn e = true) :
    selectScan pt pn ft fn (e :: L) fe = selectScan pt pn ft fn L (some e) := by
  have hfindc : (e :: L).find? (fun x => primMatch pt pn x && decide (0 < x.price))
      = L.find? (fun x => primMatch pt pn x && decide (0 < x.price)) := by
    simp [List.find?_cons, h1]
  have hfc : (e :: L).filter (fun x => !primMatch pt pn x && fbMatch ft fn x)
      = e :: L.filter (fun x => !primMatch pt pn x && fbMatch ft fn x) := by
    simp [List.filter_cons, h1, h2]
  simp only [selectScan, hfindc, hfc]
  cases hfind : L.find? (fun x => primMatch pt pn x && decide (0 < x.price)) with
  | some x => rfl
  | none =>
    cases hfl : L.filter (fun x => !primMatch pt pn x && fbMatch ft fn x) with
    | nil => rfl
    | cons y l2 =>
      rw [getLast?_cons_of_ne_nil e (List.cons_ne_nil y l2)]
      rcases getLast?_some_of_ne_nil (List.cons_ne_nil y l2) with ⟨z, hz⟩
      rw [hz]

theorem selectScan_cons_other (pt pn : String) (ft fn : Option String)
    (e : Event) (L : List Event) (fe : Option Event)
    (h1 : primMatch pt pn e = false) (h2 : fbMatch ft fn e = false) :
    selectScan pt pn ft fn (e :: L) fe = selectScan pt pn ft fn L fe := by
  have hfindc : (e :: L).find? (fun x => primMatch pt pn x && decide (0 < x.price))
      = L.find? (fun x => primMatch pt pn x && decide (0 < x.price)) := by
    simp [List.find?_cons, h1]
  have hfc : (e :: L).filter (fun x => !primMatch pt pn x && fbMatch ft fn x)
      = L.filter (fun x => !primMatch pt pn x && fbMatch ft fn x) := by
    simp [List.filter_cons, h1, h2]
  simp only [selectScan, hfindc, hfc]

theorem gvel_cons_prim_pos (pt pn : String) (ft fn : Option String)
    (e : Event) (rest : List Event) (pe fe : Option Event)
    (h1 : primMatch pt pn e = true) (h2 : 0 < e.price) :
    get_valid_event_loop pt pn ft fn (e :: rest) pe fe = some e := by
  simp [get_valid_event_loop, h1, h2]

theorem gvel_cons_prim_nonpos (pt pn : String) (ft fn : Option String)
    (e : Event) (rest : List Event) (pe fe : Option Event)
    (h1 : primMatch pt pn e = true) (h2 : ¬ 0 < e.price) :
    get_valid_event_loop pt pn ft fn (e :: rest) pe fe =
      get_valid_event_loop pt pn ft fn rest (some e) fe := by
  simp [get_valid_event_loop, h1, h2]

theorem gvel_cons_fb (pt pn : String) (ft fn : Option String)
    (e : Event) (rest : List Event) (pe fe : Option Event)
    (h1 : primMatch pt pn e = false) (h2 : fbMatch ft fn e = true) :
    get_valid_event_loop pt pn ft fn (e :: rest) pe fe =
      get_valid_event_loop pt pn ft fn rest pe (some e) := by
  simp [get_valid_event_loop, h1, h2]

theorem gvel_cons_other (pt pn : String) (ft fn : Option String)
    (e : Event) (rest : List Event) (pe fe : Option Event)
    (h1 : primMatch pt pn e = false) (h2 : fbMatch ft fn e = false) :
    get_valid_event_loop pt pn ft fn (e :: rest) pe fe =
      get_valid_event_loop pt pn ft fn rest pe fe := by
  simp [get_valid_event_loop, h1, h2]

/-- The scan of `get_valid_event_loop` computes `selectScan` whenever
the pending primary event has no usable price (the only reachable
states, since a positive-priced primary match returns immediately). -/
theorem get_valid_event_loop_closed (pt pn : String) (ft fn : Option String) :
    ∀ (L : List Event) (pe fe : Option Event),
      (∀ p, pe = some p → ¬ 0 < p.price) →
      get_valid_event_loop pt pn ft fn L pe fe = selectScan pt pn ft fn L fe := by
  intro L
  induction L with
  | nil =>
    intro pe fe hpe
    cases pe with
    | none => rfl
    | some p =>
      have hnp : ¬ 0 < p.price := hpe p rfl
      simp [get_valid_event_loop, hnp, selectScan_nil]
  | cons e rest ih =>
    intro pe fe hpe
    by_cases hp : primMatch pt pn e = true
    · by_cases hpr : 0 < e.price
      · rw [gvel_cons_prim_pos pt pn ft fn e rest pe fe hp hpr,
          selectScan_cons_prim_pos pt pn ft fn e rest fe hp hpr]
      · rw [gvel_cons_prim_nonpos pt pn ft fn e rest pe fe hp hpr,
          selectScan_cons_prim_nonpos pt pn ft fn e rest fe hp hpr]
        exact ih (some e) fe (by intro p hps; cases hps; exact hpr)
    · have hp2 : primMatch pt pn e = false := Bool.eq_false_iff.mpr hp
      by_cases hf : fbMatch ft fn e = true
      · rw [gvel_cons_fb pt pn ft fn e rest pe fe hp2 hf,
          selectScan_cons_fb pt pn ft fn e rest fe hp2 hf]
        exact ih pe (some e) hpe
      · have hf2 : fbMatch ft fn e = false := Bool.eq_false_iff.mpr hf
        rw [gvel_cons_other pt pn ft fn e rest pe fe hp2 hf2,
          selectScan_cons_other pt pn ft fn e rest fe hp2 hf2]
        exact ih pe fe hpe

/-- The entry point of the selection function equals the closed-form
rule everywhere. -/
theorem get_valid_event_eq_selectRule (events : List Event) (pt pn : String)
    (ft fn : Option String) :
    get_valid_event events pt pn ft fn = selectRuleAmended events pt pn ft fn := by
  have h := get_valid_event_loop_closed pt pn ft fn (sortEventsDesc events) none none
    (by intro p hps; cases hps)
  rw [get_valid_event, h]
  simp only [selectScan, selectRuleAmended]
  cases (sortEventsDesc events).find? (fun e => primMatch pt pn e && decide (0 < e.price)) with
  | some e => rfl
  | none =>
    cases ((sortEventsDesc events).filter
        (fun e => !primMatch pt pn e && fbMatch ft fn e)).getLast? with
    | some f => rfl
    | none => rfl

/-- The stable sort used by the selection function is sorted by event
date, most recent first. -/
theorem sortEventsDesc_pairwise (events : List Event) :
    (sortEventsDesc events).Pairwise (fun a b => b.eventDate ≤ a.eventDate) := by
  haveI htot : IsTotal Event (fun a b => b.eventDate ≤ a.eventDate) :=
    ⟨fun a b => le_total b.eventDate a.eventDate⟩
  haveI htr : IsTrans Event (fun a b => b.eventDate ≤ a.eventDate) :=
    ⟨fun a b c hab hbc => le_trans hbc hab⟩
  exact List.sorted_insertionSort (fun a b => b.eventDate ≤ a.eventDate) events

/-- The sorted event list is a permutation of the input. -/
theorem sortEventsDesc_perm (events : List Event) :
    (sortEventsDesc events).Perm events := by
  unfold sortEventsDesc
  exact List.perm_insertionSort _ events

/-- In a list sorted by date descending, `find?` returns an element
whose date dominates every element of the list satisfying the
predicate. -/
theorem find?_date_max {l : List Event} {p : Event → Bool} {e : Event}
    (hs : l.Pairwise (fun a b => b.eventDate ≤ a.eventDate))
    (hf : l.find? p = some e) :
    ∀ x ∈ l, p x = true → x.eventDate ≤ e.eventDate := by
  induction l with
  | nil => cases hf
  | cons a l ih =>
    rw [List.pairwise_cons] at hs
    rw [List.find?_cons] at hf
    by_cases hpa : p a = true
    · simp only [hpa] at hf
      injection hf with hf
      intro x hx hpx
      rcases List.mem_cons.mp hx with rfl | hx2
      · exact le_of_eq (by rw [hf])
      · exact hf ▸ hs.1 x hx2
    · simp only [Bool.eq_false_iff.mpr hpa] at hf
      intro x hx hpx
      rcases List.mem_cons.mp hx with rfl | hx2
      · exact absurd hpx hpa
      · exact ih hs.2 hf x hx2 hpx

/-! ## C10 and C3: event selection claims -/

/-- With no fallback pair, the selection reduces to a search for the
first primary match with positive price in the date-sorted list. -/
theorem get_valid_event_no_fallback (events : List Event) (pt pn : String) :
    get_valid_event events pt pn none none =
      (sortEventsDesc events).find?
        (fun e => primMatch pt pn e && decide (0 < e.price)) := by
  rw [get_valid_event_eq_selectRule]
  simp only [selectRuleAmended]
  cases hfind : (sortEventsDesc events).find?
      (fun e => primMatch pt pn e && decide (0 < e.price)) with
  | some e => rfl
  | none =>
    have hfl : (sortEventsDesc events).filter
        (fun e => !primMatch pt pn e && fbMatch none none e) = [] := by
      simp [fbMatch]
    rw [hfl]
    rfl

/-- C10: with no fallback pair, `get_valid_event` returns the
most-recent primary-matching event whose price is strictly positive,
and returns nothing exactly when no primary-matching event has positive
price — in particular a primary match with price 0 is never returned. -/
theorem C10_primary_only_selection (events : List Event) (pt pn : String) :
    (get_valid_event events pt pn none none = none ↔
      ∀ e ∈ events, ¬(primMatch pt pn e = true ∧ 0 < e.price)) ∧
    (∀ e, get_valid_event events pt pn none none = some e →
      e ∈ events ∧ primMatch pt pn e = true ∧ 0 < e.price ∧
      ∀ x ∈ events, primMatch pt pn x = true → 0 < x.price →
        x.eventDate ≤ e.eventDate) := by
  have hmem : ∀ e : Event, e ∈ sortEventsDesc events ↔ e ∈ events :=
    fun e => (sortEventsDesc_perm events).mem_iff
  constructor
  · rw [get_valid_event_no_fallback, List.find?_eq_none]
    constructor
    · intro h e he hc
      have := h e ((hmem e).mpr he)
      rw [Bool.and_eq_true, decide_eq_true_eq] at this
      exact this ⟨hc.1, hc.2⟩
    · intro h e he hc
      rw [Bool.and_eq_true, decide_eq_true_eq] at hc
      exact h e ((hmem e).mp he) hc
  · intro e hsome
    rw [get_valid_event_no_fallback] at hsome
    have hp := List.find?_some hsome
    have hin := List.mem_of_find?_eq_some hsome
    have hdate := find?_date_max (sortEventsDesc_pairwise events) hsome
    rw [Bool.and_eq_true, decide_eq_true_eq] at hp
    refine ⟨(hmem e).mp hin, hp.1, hp.2, ?_⟩
    intro x hx hpx hprx
    exact hdate x ((hmem x).mpr hx)
      (by rw [Bool.and_eq_true, decide_eq_true_eq]; exact ⟨hpx, hprx⟩)

/-- C10 witness: a property whose only rental event has price 0
produces no selected rental event. -/
theorem C10_witness :
    get_valid_event [rentalZero] ("RENTAL") ("DELISTED FOR RENT") none none = none :=
  (C10_primary_only_selection [rentalZero] ("RENTAL") ("DELISTED FOR RENT")).1.mpr
    (by decide)

/-- C3 counterexample: the claim says that when the primary match has no
usable price and no secondary match exists, the selection returns the
found primary event ("whichever of the two was found with the primary
preferred").  On an event list containing exactly one SALE/SOLD event
with price 0, called with the secondary pair LISTING / PENDING SALE, the
code instead returns nothing. -/
theorem C3_counterexample :
    get_valid_event [saleSoldZero] ("SALE") ("SOLD")
      (some ("LISTING")) (some ("PENDING SALE")) = none := by decide

/-- C3 amended: the selection function returns the most-recent
primary-matching event with strictly positive price when one exists;
otherwise the oldest secondary-matching event when the secondary pair is
given and matched (regardless of that event's price); otherwise nothing
(`selectRuleAmended`).  The claim's concrete scenario stands: for a
SALE/SOLD event with price 0 and a LISTING/PENDING_SALE event with price
150000, the selection returns the LISTING/PENDING_SALE event. -/
theorem C3_selection_amended :
    (∀ (events : List Event) (pt pn : String) (ft fn : Option String),
      get_valid_event events pt pn ft fn = selectRuleAmended events pt pn ft fn) ∧
    get_valid_event [saleSoldZero, listingPending] ("SALE") ("SOLD")
      (some ("LISTING")) (some ("PENDING_SALE")) = some listingPending :=
  ⟨get_valid_event_eq_selectRule, by decide⟩

/-! ## C4: aggregation stage input rows -/

/-- C4 counterexample: a bronze row of generation 99 recorded after the
watermark (0, 1) is nevertheless part of the aggregation query's input
row set, because the query carries no `etl_nr` or `etl_recorded_gmts`
predicate; the spec-modelled input set excludes it. -/
theorem C4_counterexample :
    process_slv_int_inv_input 1000 0 [rowGen99] = [rowGen99] ∧
    spec_inv_input 0 1 1000 0 [rowGen99] = [] := by decide

/-- C4 amended: the aggregation stage's input row set is exactly the raw
fact rows inside the trailing sale-date window whose required fields are
all non-null, taken over the entire bronze table — the watermark is read
but imposes no generation or recorded-at restriction. -/
theorem C4_agg_input_amended (today windowStart : Int)
    (rows : List BronzeSalesRow) (r : BronzeSalesRow) :
    r ∈ process_slv_int_inv_input today windowStart rows ↔
      r ∈ rows ∧ r.propLastSaleDt ≤ today ∧ windowStart ≤ r.propLastSaleDt ∧
      r.investorCompanyNm ≠ none ∧ r.propAttrBrCnt ≠ none ∧
      r.propAttrBthCnt ≠ none ∧ r.propLastSaleAmt ≠ none ∧
      r.propYrBltNr ≠ none ∧ r.propAttrSqftNr ≠ none ∧ r.propZipCd ≠ none := by
  simp [process_slv_int_inv_input, inv_input_pred, List.mem_filter, and_assoc]

/-- C4 witness for the amended statement at a concrete row. -/
theorem C4_witness :
    rowGen99 ∈ process_slv_int_inv_input 1000 0 [rowGen99] :=
  (C4_agg_input_amended 1000 0 [rowGen99] rowGen99).mpr (by decide)

/-! ## C5: key/generation allocation -/

theorem insertInvRows_mem (g ld gmts now : Int) (records : List InvAggRow) :
    ∀ (sk0 : Int) (x : SlvIntInvRow),
      x ∈ insertInvRows sk0 g ld gmts now records → x.etlNr = g ∧ sk0 < x.sk := by
  induction records with
  | nil =>
    intro sk0 x hx
    simp [insertInvRows] at hx
  | cons a rest ih =>
    intro sk0 x hx
    simp only [insertInvRows, List.mem_cons] at hx
    rcases hx with rfl | hx2
    · exact ⟨rfl, lt_add_one sk0⟩
    · have h := ih (sk0 + 1) x hx2
      exact ⟨h.1, lt_trans (lt_add_one sk0) h.2⟩

theorem insertInvRows_sk_nodup (g ld gmts now : Int) (records : List InvAggRow) :
    ∀ sk0 : Int,
      ((insertInvRows sk0 g ld gmts now records).map (·.sk)).Nodup := by
  induction records with
  | nil => intro sk0; simp [insertInvRows]
  | cons a rest ih =>
    intro sk0
    simp only [insertInvRows, List.map_cons]
    refine List.nodup_cons.mpr ⟨?_, ih (sk0 + 1)⟩
    intro hmem
    rcases List.mem_map.mp hmem with ⟨x, hx, hEq⟩
    have hlt := (insertInvRows_mem g ld gmts now rest (sk0 + 1) x hx).2
    have hEq2 : x.sk = sk0 + 1 := hEq
    omega

theorem nextKeysInv_deactivate (g : Int) (t : List SlvIntInvRow) :
    nextKeysInv (deactivateGen g t) = nextKeysInv t := by
  have h1 : (deactivateGen g t).map (·.sk) = t.map (·.sk) := by
    simp only [deactivateGen, List.map_map]
    apply List.map_congr_left
    intro x _
    by_cases hxg : x.etlNr = g <;> simp [hxg]
  have h2 : (deactivateGen g t).map (·.etlNr) = t.map (·.etlNr) := by
    simp only [deactivateGen, List.map_map]
    apply List.map_congr_left
    intro x _
    by_cases hxg : x.etlNr = g <;> simp [hxg]
  simp [nextKeysInv, h1, h2]

/-- C5: the allocation reads `(max surrogate key or 0, max generation or
0)` from the target table — so every existing row's key and generation
are bounded by the read pair — the run stamps generation `read maximum +
1` on every inserted row and returns it, the surrogate keys are
allocated by incrementing the read maximum once per emitted row (hence
pairwise distinct and strictly above every existing key, never reused),
and a failed run, which commits only the deactivation update, leaves the
read maxima unchanged. -/
theorem C5_allocator_contract (t : List SlvIntInvRow) (records : List InvAggRow)
    (ld gmts now : Int) :
    ((upsert_table records (nextKeysInv t).1 (nextKeysInv t).2 t ld gmts now).2
        = (nextKeysInv t).2 + 1) ∧
    (∀ r ∈ t, r.sk ≤ (nextKeysInv t).1 ∧ r.etlNr ≤ (nextKeysInv t).2) ∧
    (∀ x ∈ insertInvRows (nextKeysInv t).1 ((nextKeysInv t).2 + 1) ld gmts now records,
        x.etlNr = (nextKeysInv t).2 + 1 ∧ (nextKeysInv t).1 < x.sk) ∧
    ((insertInvRows (nextKeysInv t).1 ((nextKeysInv t).2 + 1) ld gmts now records).map
        (·.sk)).Nodup ∧
    nextKeysInv (deactivateGen (nextKeysInv t).2 t) = nextKeysInv t := by
  refine ⟨rfl, ?_, ?_, insertInvRows_sk_nodup _ ld gmts now records _,
    nextKeysInv_deactivate _ t⟩
  · intro r hr
    exact ⟨le_maxOr 0 (List.mem_map.mpr ⟨r, hr, rfl⟩),
      le_maxOr 0 (List.mem_map.mpr ⟨r, hr, rfl⟩)⟩
  · intro x hx
    exact insertInvRows_mem _ ld gmts now records _ x hx

/-- C5 witness at a concrete table and batch. -/
theorem C5_witness :
    ((upsert_table [aggA] (nextKeysInv invT0).1 (nextKeysInv invT0).2 invT0 0 0 0).2
        = (nextKeysInv invT0).2 + 1) ∧
    nextKeysInv (deactivateGen (nextKeysInv invT0).2 invT0) = nextKeysInv invT0 :=
  ⟨(C5_allocator_contract invT0 [aggA] 0 0 0).1,
   (C5_allocator_contract invT0 [aggA] 0 0 0).2.2.2.2⟩

/-! ## C7: aggregation group outputs -/

theorem filter_beq_length_eq_one {l : List String} {nm : String}
    (hnd : l.Nodup) (hmem : nm ∈ l) :
    (l.filter (fun x => x == nm)).length = 1 := by
  rw [← List.countP_eq_length_filter]
  exact List.count_eq_one_of_mem hnd hmem

/-- C7: for every aggregation group, the emitted row has
`active_flag = (group row count >= 2)` and year/square-footage buckets
equal to `floor(min / 10) * 10` of the group minima, and every group
with at least one qualifying row — including groups with fewer than two
properties — is emitted exactly once. -/
theorem C7_aggregation_groups (today windowStart : Int)
    (bronze : List BronzeSalesRow) (nm : String) :
    ((aggRowFor nm (process_slv_int_inv_input today windowStart bronze)).activeFlagInt
        = if 2 ≤ ((process_slv_int_inv_input today windowStart bronze).filter
            (fun r => r.investorCompanyNm == some nm)).length then 1 else 0) ∧
    ((aggRowFor nm (process_slv_int_inv_input today windowStart bronze)).numProperties
        = (((process_slv_int_inv_input today windowStart bronze).filter
            (fun r => r.investorCompanyNm == some nm)).length : Int)) ∧
    ((aggRowFor nm (process_slv_int_inv_input today windowStart bronze)).minYears
        = 10 * Int.fdiv (minOr 0 (((process_slv_int_inv_input today windowStart bronze).filter
            (fun r => r.investorCompanyNm == some nm)).filterMap (·.propYrBltNr))) 10) ∧
    ((aggRowFor nm (process_slv_int_inv_input today windowStart bronze)).minSqft
        = 10 * Int.fdiv (minOr 0 (((process_slv_int_inv_input today windowStart bronze).filter
            (fun r => r.investorCompanyNm == some nm)).filterMap (·.propAttrSqftNr))) 10) ∧
    ((∃ r ∈ process_slv_int_inv_input today windowStart bronze,
        r.investorCompanyNm = some nm) →
      ((process_slv_int_inv_agg today windowStart bronze).filter
        (fun a => a.investorCompanyNmTxt == nm)).length = 1) := by
  refine ⟨rfl, rfl, rfl, rfl, ?_⟩
  intro hex
  have hnm : nm ∈ ((process_slv_int_inv_input today windowStart bronze).filterMap
      (·.investorCompanyNm)).dedup := by
    rw [List.mem_dedup, List.mem_filterMap]
    rcases hex with ⟨r, hr, hnmr⟩
    exact ⟨r, hr, hnmr⟩
  unfold process_slv_int_inv_agg
  rw [List.filter_map, List.length_map]
  exact filter_beq_length_eq_one (List.nodup_dedup _) hnm

/-- C7 witness (Scenario B): two qualifying purchases by "Acme LLC"
give that investor count 2, an active flag, and one emitted row. -/
theorem C7_witness :
    ((aggRowFor ("Acme LLC") (process_slv_int_inv_input 100 0 [acme1, acme2])).numProperties
        = 2) ∧
    ((aggRowFor ("Acme LLC") (process_slv_int_inv_input 100 0 [acme1, acme2])).activeFlagInt
        = 1) ∧
    ((process_slv_int_inv_agg 100 0 [acme1, acme2]).filter
        (fun a => a.investorCompanyNmTxt == "Acme LLC")).length = 1 := by
  refine ⟨?_, ?_, ?_⟩
  · rw [(C7_aggregation_groups 100 0 [acme1, acme2] ("Acme LLC")).2.1]
    decide
  · rw [(C7_aggregation_groups 100 0 [acme1, acme2] ("Acme LLC")).1]
    decide
  · exact (C7_aggregation_groups 100 0 [acme1, acme2] ("Acme LLC")).2.2.2.2
      ⟨acme1, by decide, by decide⟩

/-! ## C2: transactional behaviour of the upsert stages -/

/-- C2 counterexample: `upsert_table` commits twice — the deactivation
update is committed on its own before the insert loop — so on a one-row
table whose row is active in generation 1, the first committed state
(the state left visible if the run fails during the inserts) is not the
pre-batch table: the row has already been deactivated. -/
theorem C2_counterexample :
    (upsert_table_commits [] 1 1 invT0 5 6 7).length = 2 ∧
    (upsert_table_commits [] 1 1 invT0 5 6 7).head? ≠ some invT0 := by decide

/-- C2 amended: the address-scoped sales stage commits exactly once,
after the full batch (so a failure before that commit leaves its table
pre-batch), while the generation-wide `upsert_table` commits the
deactivation separately before inserting: its first committed state
contains no inserted rows (same length as the pre-batch table, every row
derived from a pre-batch row) and no active rows of the deactivated
generation. -/
theorem C2_commit_discipline_amended (gen ts : Int) (bronze : List BronzeSalesRow)
    (m : SalesMeta) (t0 : List SlvSalesRow) (sk0 : Int)
    (records : List InvAggRow) (pk g : Int) (t : List SlvIntInvRow)
    (ld gmts now : Int) :
    (prc_sls_commits gen ts bronze m t0 sk0
        = [prc_slv_int_prop_sls_dlt_pl gen ts bronze m t0 sk0]) ∧
    (upsert_table_commits records pk g t ld gmts now
        = [deactivateGen g t, (upsert_table records pk g t ld gmts now).1]) ∧
    (∀ x ∈ deactivateGen g t, x.etlNr = g → x.activeRecInd = false) ∧
    ((deactivateGen g t).length = t.length) ∧
    (∀ x ∈ deactivateGen g t,
      x ∈ t ∨ ∃ y ∈ t, x = { y with activeRecInd := false }) := by
  refine ⟨rfl, rfl, ?_, by simp [deactivateGen], ?_⟩
  · intro x hx hg
    rcases List.mem_map.mp hx with ⟨y, hy, hEq⟩
    by_cases hyg : y.etlNr = g
    · rw [← hEq]
      simp [hyg]
    · rw [← hEq] at hg ⊢
      simp only [if_neg hyg] at hg ⊢
      exact absurd hg hyg
  · intro x hx
    rcases List.mem_map.mp hx with ⟨y, hy, hEq⟩
    by_cases hyg : y.etlNr = g
    · right
      refine ⟨y, hy, ?_⟩
      rw [← hEq]
      simp [hyg]
    · left
      rw [← hEq]
      simp only [if_neg hyg]
      exact hy

/-- C2 witness at concrete inputs for both stages. -/
theorem C2_witness :
    (upsert_table_commits [aggA] 1 1 invT0 0 0 0
        = [deactivateGen 1 invT0, (upsert_table [aggA] 1 1 invT0 0 0 0).1]) ∧
    (prc_sls_commits 1 0 [bronzeNewer, bronzeOlder]
        { loadDateDt := 0, etlNr := 1, etlRecordedGmts := 0, now := 0 } [] 0
      = [prc_slv_int_prop_sls_dlt_pl 1 0 [bronzeNewer, bronzeOlder]
          { loadDateDt := 0, etlNr := 1, etlRecordedGmts := 0, now := 0 } [] 0]) :=
  ⟨(C2_commit_discipline_amended 1 0 [bronzeNewer, bronzeOlder]
      { loadDateDt := 0, etlNr := 1, etlRecordedGmts := 0, now := 0 } [] 0
      [aggA] 1 1 invT0 0 0 0).2.1,
   (C2_commit_discipline_amended 1 0 [bronzeNewer, bronzeOlder]
      { loadDateDt := 0, etlNr := 1, etlRecordedGmts := 0, now := 0 } [] 0
      [aggA] 1 1 invT0 0 0 0).1⟩

/-! ## C1: active-row discipline of the SCD upserts -/

theorem filter_flip_self (adr : String) (t : List SlvSalesRow) :
    ((t.map (fun x => if salesActivePred adr x then { x with latestRecordInd := false }
        else x)).filter (salesActivePred adr)) = [] := by
  rw [List.filter_eq_nil_iff]
  intro x hx
  rcases List.mem_map.mp hx with ⟨y, hy, hEq⟩
  by_cases hy2 : salesActivePred adr y = true
  · rw [← hEq, if_pos hy2]
    simp [salesActivePred]
  · rw [← hEq, if_neg hy2]
    exact hy2

theorem filter_flip_preserve (adr a : String) (h : ¬ adr = a) (t : List SlvSalesRow) :
    ((t.map (fun x => if salesActivePred adr x then { x with latestRecordInd := false }
        else x)).filter (salesActivePred a)) = t.filter (salesActivePred a) := by
  induction t with
  | nil => rfl
  | cons y t ih =>
    simp only [List.map_cons, List.filter_cons]
    by_cases hy : salesActivePred adr y = true
    · have hyparts : y.latestRecordInd = true ∧ y.usraddr = adr := by
        simpa [salesActivePred] using hy
      have h1 : salesActivePred a { y with latestRecordInd := false } = false := by
        simp [salesActivePred]
      have h2 : salesActivePred a y = false := by
        simp only [salesActivePred, hyparts.1, Bool.true_and]
        rw [beq_eq_false_iff_ne]
        rw [hyparts.2]
        exact h
      rw [if_pos hy, h1, h2]
      simp [ih]
    · have hy2 : salesActivePred adr y = false := Bool.eq_false_iff.mpr hy
      rw [if_neg hy]
      by_cases hya : salesActivePred a y = true
      · rw [hya]
        simp [ih]
      · rw [Bool.eq_false_iff.mpr hya]
        simp [ih]

/-- One per-row iteration of the address-scoped upsert: afterwards, the
active rows for the incoming row's address are exactly the inserted row
when its own flag is true, and no row otherwise; other addresses are
untouched. -/
theorem activesFor_step (m : SalesMeta) (t : List SlvSalesRow) (sk : Int)
    (r : SalesBatchRow) (a : String) :
    activesFor a (process_sales_row m (t, sk) r).1 =
      if r.usraddr = a then
        (if r.latestRecordInd then [mkSlvSalesRow (sk + 1) m r] else [])
      else activesFor a t := by
  simp only [process_sales_row, activesFor]
  rw [List.filter_append]
  by_cases ha : r.usraddr = a
  · subst ha
    rw [if_pos rfl]
    have hmain : ((if t.any (salesActivePred r.usraddr) = true then
        t.map (fun x => if salesActivePred r.usraddr x then
          { x with latestRecordInd := false } else x) else t).filter
            (salesActivePred r.usraddr)) = [] := by
      by_cases hany : t.any (salesActivePred r.usraddr) = true
      · rw [if_pos hany]
        exact filter_flip_self r.usraddr t
      · rw [if_neg hany]
        rw [List.filter_eq_nil_iff]
        exact List.any_eq_false.mp (Bool.eq_false_iff.mpr hany)
    rw [hmain]
    by_cases hl : r.latestRecordInd = true
    · simp [salesActivePred, mkSlvSalesRow, hl]
    · simp [salesActivePred, mkSlvSalesRow, Bool.eq_false_iff.mpr hl]
  · rw [if_neg ha]
    have hnew : salesActivePred a (mkSlvSalesRow (sk + 1) m r) = false := by
      simp only [salesActivePred, mkSlvSalesRow]
      rw [Bool.and_eq_false_iff]
      right
      rw [beq_eq_false_iff_ne]
      exact ha
    by_cases hany : t.any (salesActivePred r.usraddr) = true
    · rw [if_pos hany, filter_flip_preserve r.usraddr a ha t]
      simp [hnew]
    · rw [if_neg hany]
      simp [hnew]

theorem lastFor_cons (a : String) (r : SalesBatchRow) (batch : List SalesBatchRow) :
    lastFor a (r :: batch) =
      match lastFor a batch with
      | some x => some x
      | none => if r.usraddr == a then some r else none := by
  simp only [lastFor, List.filter_cons]
  by_cases hr : (r.usraddr == a) = true
  · rw [if_pos hr, if_pos hr]
    cases hfl : batch.filter (fun x => x.usraddr == a) with
    | nil => rfl
    | cons y l2 =>
      rw [getLast?_cons_of_ne_nil r (List.cons_ne_nil y l2)]
      rcases getLast?_some_of_ne_nil (α := SalesBatchRow) (List.cons_ne_nil y l2) with ⟨z, hz⟩
      rw [hz]
  · rw [if_neg hr, if_neg hr]
    cases hfl : (batch.filter (fun x => x.usraddr == a)).getLast? with
    | none => rfl
    | some z => rfl

/-- The whole per-row loop: for every address with at least one batch
row, the final active rows for that address are decided by the
last-processed batch row for it — the inserted copy of that row when its
flag is true, nothing when its flag is false; an address with no batch
row keeps its prior active rows. -/
theorem activesFor_fold (m : SalesMeta) (batch : List SalesBatchRow) :
    ∀ (t : List SlvSalesRow) (sk : Int) (a : String),
      (lastFor a batch = none →
        activesFor a (sales_fold m (t, sk) batch).1 = activesFor a t) ∧
      (∀ r, lastFor a batch = some r →
        ∃ k, activesFor a (sales_fold m (t, sk) batch).1 =
          (if r.latestRecordInd then [mkSlvSalesRow k m r] else [])) := by
  induction batch with
  | nil =>
    intro t sk a
    refine ⟨fun _ => rfl, fun r hr => ?_⟩
    simp [lastFor] at hr
  | cons r0 rest ih =>
    intro t sk a
    have hstep := activesFor_step m t sk r0 a
    have hfold : sales_fold m (t, sk) (r0 :: rest)
        = sales_fold m (process_sales_row m (t, sk) r0) rest := rfl
    have ihp := ih (process_sales_row m (t, sk) r0).1 (process_sales_row m (t, sk) r0).2 a
    have hlastc := lastFor_cons a r0 rest
    cases hrest : lastFor a rest with
    | some x =>
      rw [hrest] at hlastc
      have hlast2 : lastFor a (r0 :: rest) = some x := hlastc
      constructor
      · intro hc
        rw [hlast2] at hc
        cases hc
      · intro r hr
        rw [hlast2] at hr
        have hrx : x = r := Option.some.inj hr
        subst hrx
        rcases ihp.2 x hrest with ⟨k, hk⟩
        refine ⟨k, ?_⟩
        rw [hfold]
        exact hk
    | none =>
      rw [hrest] at hlastc
      have hlast2 : lastFor a (r0 :: rest)
          = if r0.usraddr == a then some r0 else none := hlastc
      have h1 := ihp.1 hrest
      by_cases hr0 : (r0.usraddr == a) = true
      · rw [if_pos hr0] at hlast2
        have haddr : r0.usraddr = a := by
          simpa using hr0
        constructor
        · intro hc
          rw [hlast2] at hc
          cases hc
        · intro r hr
          rw [hlast2] at hr
          have hrr : r0 = r := Option.some.inj hr
          subst hrr
          refine ⟨sk + 1, ?_⟩
          rw [hfold, h1, hstep, if_pos haddr]
      · rw [if_neg hr0] at hlast2
        have haddr : ¬ r0.usraddr = a := by
          simpa using hr0
        constructor
        · intro _
          rw [hfold, h1, hstep, if_neg haddr]
        · intro r hr
          rw [hlast2] at hr
          cases hr

theorem deactivate_filter_active_nil {t : List SlvIntInvRow} {g : Int} (nm : String)
    (h : ∀ r ∈ t, r.activeRecInd = true → r.etlNr = g) :
    ((deactivateGen g t).filter
      (fun r => r.activeRecInd && r.investorCompanyNmTxt == nm)) = [] := by
  rw [List.filter_eq_nil_iff]
  intro x hx
  rcases List.mem_map.mp hx with ⟨y, hy, hEq⟩
  by_cases hyg : y.etlNr = g
  · rw [← hEq, if_pos hyg]
    simp
  · rw [← hEq, if_neg hyg]
    rw [Bool.and_eq_true]
    intro hc
    exact hyg (h y hy hc.1)

theorem insertInvRows_filter_name (nm : String) (g ld gmts now : Int)
    (records : List InvAggRow) :
    ∀ sk0 : Int,
      ((insertInvRows sk0 g ld gmts now records).filter
        (fun r => r.activeRecInd && r.investorCompanyNmTxt == nm)).length
      = (records.filter (fun a2 => a2.investorCompanyNmTxt == nm)).length := by
  induction records with
  | nil =>
    intro sk0
    rfl
  | cons a rest ih =>
    intro sk0
    simp only [insertInvRows, List.filter_cons]
    have hpred : ((mkInvRow (sk0 + 1) g ld gmts now a).activeRecInd &&
        (mkInvRow (sk0 + 1) g ld gmts now a).investorCompanyNmTxt == nm)
      = (a.investorCompanyNmTxt == nm) := by
      simp [mkInvRow]
    rw [hpred]
    by_cases hn : (a.investorCompanyNmTxt == nm) = true
    · rw [hn]
      simp [ih (sk0 + 1)]
    · rw [Bool.eq_false_iff.mpr hn]
      simp [ih (sk0 + 1)]

theorem filter_name_length_eq_count (records : List InvAggRow) (nm : String) :
    (records.filter (fun a2 => a2.investorCompanyNmTxt == nm)).length
      = (records.map (·.investorCompanyNmTxt)).count nm := by
  rw [← List.countP_eq_length_filter]
  rw [List.count, List.countP_map]
  rfl

/-- C1 amended: after an upsert stage run completes, at most one row per
upserted natural identity is active, and which row is decided by the
inserted rows' own indicators rather than unconditionally by batch
position.  Generation-wide investor table: when the batch has at most
one row per investor name (as the GROUP BY aggregation produces) and
every previously active row lies in the deactivated generation, exactly
one row per batch identity is active afterwards.  Address-scoped sales
table: the last-processed batch row for an address is the only candidate
left active — it is active precisely when its own computed
`latest_record_ind` flag is true, so an address whose last batch row
carries a false flag ends with zero active rows. -/
theorem C1_scd_active_rows_amended :
    (∀ (t : List SlvIntInvRow) (records : List InvAggRow) (pk g ld gmts now : Int)
        (nm : String),
      (∀ r ∈ t, r.activeRecInd = true → r.etlNr = g) →
      (records.map (·.investorCompanyNmTxt)).Nodup →
      nm ∈ records.map (·.investorCompanyNmTxt) →
      ((upsert_table records pk g t ld gmts now).1.filter
        (fun r => r.activeRecInd && r.investorCompanyNmTxt == nm)).length = 1) ∧
    (∀ (m : SalesMeta) (batch : List SalesBatchRow) (t0 : List SlvSalesRow)
        (sk0 : Int) (a : String) (r : SalesBatchRow),
      lastFor a batch = some r →
      (activesFor a (sales_fold m (t0, sk0) batch).1).length ≤ 1 ∧
      (r.latestRecordInd = true →
        ∃ k, activesFor a (sales_fold m (t0, sk0) batch).1 = [mkSlvSalesRow k m r]) ∧
      (r.latestRecordInd = false →
        activesFor a (sales_fold m (t0, sk0) batch).1 = [])) := by
  constructor
  · intro t records pk g ld gmts now nm hact hnd hnm
    show (((deactivateGen g t ++ insertInvRows pk (g + 1) ld gmts now records).filter
      (fun r => r.activeRecInd && r.investorCompanyNmTxt == nm)).length = 1)
    rw [List.filter_append, List.length_append,
      deactivate_filter_active_nil nm hact]
    rw [List.length_nil, Nat.zero_add]
    rw [insertInvRows_filter_name nm (g + 1) ld gmts now records pk]
    rw [filter_name_length_eq_count]
    exact List.count_eq_one_of_mem hnd hnm
  · intro m batch t0 sk0 a r hlast
    rcases (activesFor_fold m batch t0 sk0 a).2 r hlast with ⟨k, hk⟩
    refine ⟨?_, ?_, ?_⟩
    · rw [hk]
      by_cases hl : r.latestRecordInd = true
      · rw [if_pos hl]
        exact le_refl 1
      · rw [if_neg hl]
        exact Nat.zero_le 1
    · intro hl
      exact ⟨k, by rw [hk, if_pos hl]⟩
    · intro hl
      rw [hk, hl]
      rfl

/-- C1 counterexample: running the address-scoped sales upsert over two
bronze rows for the same address — the newer sale (flag true, dense rank
1) ordered first by surrogate key, the older sale (flag false) last —
leaves ZERO active rows for that upserted address: the second iteration
deactivates the first insert and then inserts a row whose own
`latest_record_ind` is false.  The claim requires exactly one active row
(the last-in-batch row active). -/
theorem C1_counterexample :
    (activesFor (usraddrOf bronzeNewer)
      (prc_slv_int_prop_sls_dlt_pl 1 0 [bronzeNewer, bronzeOlder]
        { loadDateDt := 0, etlNr := 1, etlRecordedGmts := 0, now := 0 } [] 0)).length
      = 0 := by decide

/-- C1 witness: the investor conjunct of the amended claim at a concrete
table and batch. -/
theorem C1_witness :
    ((upsert_table [aggA] 1 1 invT0 0 0 0).1.filter
      (fun r => r.activeRecInd && r.investorCompanyNmTxt == "A")).length = 1 :=
  C1_scd_active_rows_amended.1 invT0 [aggA] 1 1 0 0 0 ("A")
    (by decide) (by decide) (by decide)
